import Mathlib

/-! # yisshd: credential store and session dispatch

A shallow embedding of `lpasswd/lpasswd.go`, `tools/tools.go`, `forward/forward.go`
and `yisshd.go`, with the theorems about them.

Conventions of the embedding.

* Text (Go `string` / `[]byte` holding UTF-8 text: store files, fields, user names,
  passwords) is a list of Unicode characters, `Str`.  The byte-oriented searches of
  `encoding/csv` look only for ASCII bytes, which in UTF-8 text occur exactly as the
  corresponding characters.
* Binary request payloads are lists of bytes, each a natural number below 256;
  byte arithmetic is written with an explicit `% 256`.
* The collaborators outside the repository (`bcrypt`, `passlib`, the file system, process
  start) are parameters of the definitions.
-/

namespace Yisshd

/-- UTF-8 text as a sequence of characters. -/
abbrev Str := List Char

/-! ## `encoding/csv` as configured by the store (`Comma = ':'`, `Comment = '#'`,
`FieldsPerRecord = 3`, `LazyQuotes = false`, `TrimLeadingSpace = false`) -/

namespace Csv

/-- The `Err` of a `csv.ParseError` (positions are not recorded). -/
inductive ParseErr
  | bareQuote
  | quote
  | fieldCount
  deriving DecidableEq, Repr

/-- Go `lengthNL`: 1 when the line ends in a newline, else 0. -/
def lengthNL (b : Str) : Nat :=
  if b.getLast? = some '\n' then 1 else 0

/-- The successive results of `bufio.Reader.ReadSlice('\n')` on the input: every chunk
ends with its newline, except a last non-empty chunk that has none. `cur` holds the
characters of the chunk read so far. -/
def rawLines : Str → Str → List Str
  | cur, [] => if cur = [] then [] else [cur]
  | cur, c :: cs =>
    if c = '\n' then (cur ++ [c]) :: rawLines [] cs else rawLines (cur ++ [c]) cs

/-- What `Reader.readLine` makes of one chunk: a chunk without newline (read at end of
input) loses a trailing `\r`; a trailing `\r\n` becomes `\n`. -/
def normLine (raw : Str) : Str :=
  let line :=
    if raw.getLast? ≠ some '\n' ∧ raw.getLast? = some '\r' then raw.dropLast else raw
  let n := line.length
  if 2 ≤ n ∧ line.get? (n - 2) = some '\r' ∧ line.get? (n - 1) = some '\n' then
    line.take (n - 2) ++ ['\n']
  else line

/-- The lines the successive `readLine` calls return before `io.EOF`. -/
def readLines (b : Str) : List Str :=
  (rawLines [] b).map normLine

/-- Where `readRecord` stands inside a line: at the start of a field, inside a
non-quoted field, inside a quoted field, or just behind a `"` met inside a quoted field. -/
inductive Mode
  | start
  | plain
  | quoted
  | afterQuote
  deriving DecidableEq, Repr

/-- How the scan of one line leaves the record being read. -/
inductive LineScan
  | done (fields : List Str)
  | more (fields : List Str) (buf : Str)
  | bad (e : ParseErr)
  deriving DecidableEq, Repr

/-- End of a non-quoted field that closes the record: a `"` inside it is `ErrBareQuote`. -/
def endPlain (fields : List Str) (buf : Str) : LineScan :=
  if '"' ∈ buf then .bad .bareQuote else .done (fields ++ [buf])

/-- The `parseField` loop of `readRecord` over the characters of one line.
`fields` are the fields completed so far, `buf` the characters of the current field.

* `start` is the head of the loop: a first character `"` opens a quoted field; otherwise
  the field is non-quoted and runs to the first comma (`bytes.IndexRune(line, r.Comma)`)
  or, without one, to the end of the line less its newline (`lengthNL`).
* `plain` walks a non-quoted field; at its end a `"` inside it is `ErrBareQuote`.
* `quoted` walks to the next `"` (`bytes.IndexByte(line, '"')`); when the line runs out
  first, the line (newline included) has gone into the field and the next line is needed.
* `afterQuote` is the `switch` on the character behind a `"`: a second `"` is a literal
  quote, a comma ends the field, the end of the line (`lengthNL(line) == len(line)`) ends
  the record, anything else is `ErrQuote`. -/
def scan : Mode → List Str → Str → Str → LineScan
  | .start, fields, _, [] => endPlain fields []
  | .plain, fields, buf, [] => endPlain fields buf
  | .quoted, fields, buf, [] => .more fields buf
  | .afterQuote, fields, buf, [] => .done (fields ++ [buf])
  | .start, fields, _, c :: cs =>
    if c = '"' then scan .quoted fields [] cs
    else if c = ':' then scan .start (fields ++ [[]]) [] cs
    else if c = '\n' ∧ cs = [] then endPlain fields []
    else scan .plain fields [c] cs
  | .plain, fields, buf, c :: cs =>
    if c = ':' then
      if '"' ∈ buf then .bad .bareQuote else scan .start (fields ++ [buf]) [] cs
    else if c = '\n' ∧ cs = [] then endPlain fields buf
    else scan .plain fields (buf ++ [c]) cs
  | .quoted, fields, buf, c :: cs =>
    if c = '"' then scan .afterQuote fields buf cs
    else scan .quoted fields (buf ++ [c]) cs
  | .afterQuote, fields, buf, c :: cs =>
    if c = '"' then scan .quoted fields (buf ++ ['"']) cs
    else if c = ':' then scan .start (fields ++ [buf]) [] cs
    else if c = '\n' ∧ cs = [] then .done (fields ++ [buf])
    else .bad .quote

/-- The results of the successive `Reader.Read` calls over the remaining lines, up to
the first error; after the last element `Read` returns `io.EOF`.
The first argument is `some (fields, buf)` while a quoted field runs over a line end, and
`none` between records, where comment lines (first character `#`) and empty lines are
skipped. A quoted field still open when the input ends is `ErrQuote`; a record whose
number of fields is not `FieldsPerRecord = 3` is `ErrFieldCount`. -/
def readStream : Option (List Str × Str) → List Str → List (Except ParseErr (List Str))
  | none, [] => []
  | some _, [] => [.error .quote]
  | none, l :: rest =>
    if l.head? = some '#' then readStream none rest
    else if l.length = lengthNL l then readStream none rest
    else
      match scan .start [] [] l with
      | .done fields =>
        if fields.length ≠ 3 then [.error .fieldCount]
        else .ok fields :: readStream none rest
      | .more fields buf => readStream (some (fields, buf)) rest
      | .bad e => [.error e]
  | some (fields, buf), l :: rest =>
    match scan .quoted fields buf l with
    | .done fields =>
      if fields.length ≠ 3 then [.error .fieldCount]
      else .ok fields :: readStream none rest
    | .more fields buf => readStream (some (fields, buf)) rest
    | .bad e => [.error e]

/-- A `csv.Reader` over the bytes `b`: the results its `Read` calls will give. -/
def NewReader (b : Str) : List (Except ParseErr (List Str)) :=
  readStream none (readLines b)

/-- Collects the records of a reader until `io.EOF`; the first error is returned. -/
def collect : List (Except ParseErr (List Str)) → Except ParseErr (List (List Str))
  | [] => .ok []
  | .ok r :: rest =>
    match collect rest with
    | .ok rs => .ok (r :: rs)
    | .error e => .error e
  | .error e :: _ => .error e

/-- Go `Reader.ReadAll`. -/
def ReadAll (b : Str) : Except ParseErr (List (List Str)) :=
  collect (NewReader b)

/-- Go `unicode.IsSpace`. -/
def isSpace (c : Char) : Bool :=
  let n := c.toNat
  (0x09 ≤ n && n ≤ 0x0d) || n = 0x20 || n = 0x85 || n = 0xa0 || n = 0x1680 ||
    (0x2000 ≤ n && n ≤ 0x200a) || n = 0x2028 || n = 0x2029 || n = 0x202f ||
    n = 0x205f || n = 0x3000

/-- Go `Writer.fieldNeedsQuotes` for `Comma = ':'`. -/
def fieldNeedsQuotes (field : Str) : Bool :=
  match field with
  | [] => false
  | c :: _ =>
    if field = ['\\', '.'] then true
    else if field.any (fun x => x = '\n' || x = '\r' || x = '"' || x = ':') then true
    else isSpace c

/-- The body of a quoted field as `Writer.Write` emits it (`UseCRLF = false`): a `"` is
doubled, every other character is copied. -/
def escape : Str → Str
  | [] => []
  | c :: cs => if c = '"' then '"' :: '"' :: escape cs else c :: escape cs

/-- One field as `Writer.Write` emits it. -/
def writeField (field : Str) : Str :=
  if fieldNeedsQuotes field then '"' :: (escape field ++ ['"']) else field

/-- The fields of a record joined by the comma, without the line end. -/
def joinFields : List Str → Str
  | [] => []
  | [f] => writeField f
  | f :: fs => writeField f ++ ':' :: joinFields fs

/-- Go `Writer.Write`: the bytes one record adds to the output. -/
def Write (record : List Str) : Str :=
  joinFields record ++ ['\n']

/-- Go `Writer.WriteAll`: the bytes the records add to the output. -/
def WriteAll : List (List Str) → Str
  | [] => []
  | r :: rs => Write r ++ WriteAll rs

/-- Whether the line written for a record starts with the comment character, so that
the reader skips it. -/
def isCommentRow (r : List Str) : Bool :=
  (Write r).head? = some '#'

end Csv

/-! ## `lpasswd/lpasswd.go` -/

namespace Lpasswd

/-- Go `AuthCtx`: the two injected operations. A field left `nil` is replaced by
`os.ReadFile` / `user.Lookup` on entry, so the fields here always hold a function.
`userlookup` answers whether the lookup returned without error. -/
structure AuthCtx (ρ : Type) where
  reader : String → Except ρ Str
  userlookup : Str → Bool

/-- The functions of `github.com/jameskeane/bcrypt` the store calls. `Salt` is the
outcome of the random salt generation in the run considered. -/
structure Bcrypt (β : Type) where
  Salt : Nat → Except β Str
  Hash : Str → Str → Except β Str
  Match : Str → Str → Bool

/-- The errors `AuthUserByPasswd` returns. -/
inductive AuthErr (β : Type)
  | cannotRead (fname : String)
  | csv (e : Csv.ParseErr)
  | bcrypt (e : β)
  | authFailure
  deriving DecidableEq, Repr

/-- The results of `AuthUserByPasswd`, with the arguments of every `bcrypt.Hash` call it
made, in order. -/
structure AuthResult (β : Type) where
  valid : Bool
  err : Option (AuthErr β)
  hashCalls : List (Str × Str)
  deriving DecidableEq, Repr

/-- The user name substituted when no record matches. -/
def nosuchuser : Str := "$nosuchuser$".toList

/-- The dummy entry used when the user is not found. -/
def dummyRecord : List Str :=
  [nosuchuser, "$2a$12$l0coBlRDNEJeQVl6GdEPbU".toList,
    "$2a$12$l0coBlRDNEJeQVl6GdEPbUC/xmuOANvqgmrMVum6S4i.EXPgnTXy6".toList]

/-- The body of `if username == record[0]`: hash the presented secret with the record's
salt and compare. -/
def checkRecord {β : Type} (bc : Bcrypt β) (username auth : Str) (record : List Str) :
    AuthResult β :=
  match bc.Hash auth (record.getD 1 []) with
  | .error e => ⟨false, some (.bcrypt e), [(auth, record.getD 1 [])]⟩
  | .ok tmp =>
    if tmp = record.getD 2 [] ∧ username ≠ nosuchuser then
      ⟨true, none, [(auth, record.getD 1 [])]⟩
    else ⟨false, some .authFailure, [(auth, record.getD 1 [])]⟩

/-- How the record loop of `AuthUserByPasswd` is left: by `return false, err`, or by
`break` with the value of `username` at that point. -/
inductive LoopExit (β : Type)
  | returned (r : AuthResult β)
  | broke (r : AuthResult β) (username : Str)

/-- The `for` loop of `AuthUserByPasswd` over the results of `r.Read()`. -/
def authLoop {β : Type} (bc : Bcrypt β) (auth : Str) :
    Str → List (Except Csv.ParseErr (List Str)) → LoopExit β
  | _, [] => .broke (checkRecord bc nosuchuser auth dummyRecord) nosuchuser
  | _, .error e :: _ => .returned ⟨false, some (.csv e), []⟩
  | username, .ok record :: rest =>
    if username = record.getD 0 [] then .broke (checkRecord bc username auth record) username
    else authLoop bc auth username rest

/-- Go `AuthUserByPasswd`. -/
def AuthUserByPasswd {ρ β : Type} (ctx : AuthCtx ρ) (bc : Bcrypt β) (sysacct : Bool)
    (username auth : Str) (fname : String) : AuthResult β :=
  match ctx.reader fname with
  | .error _ => ⟨false, some (.cannotRead fname), []⟩
  | .ok b =>
    match authLoop bc auth username (Csv.NewReader b) with
    | .returned r => r
    | .broke r username =>
      if sysacct ∧ ¬ ctx.userlookup username then { r with valid := false } else r

/-- The file system as far as `SetPasswd` uses it: the content of each existing file. -/
abbrev FS := String → Option Str

/-- Go `os.ReadFile`. -/
def FS.ReadFile (fs : FS) (name : String) : Except Unit Str :=
  match fs name with
  | some b => .ok b
  | none => .error ()

/-- Go `ioutil.TempFile` followed by the writes to it: `name` is the fresh name the
system picks, so an existing file of that name is a failure. -/
def FS.TempFile (fs : FS) (name : String) (data : Str) : Option FS :=
  match fs name with
  | some _ => none
  | none => some (fun n => if n = name then some data else fs n)

/-- Go `os.Remove`. -/
def FS.Remove (fs : FS) (name : String) : Option FS :=
  match fs name with
  | none => none
  | some _ => some (fun n => if n = name then none else fs n)

/-- Go `os.Rename`. -/
def FS.Rename (fs : FS) (oldname newname : String) : Option FS :=
  match fs oldname with
  | none => none
  | some b => some (fun n => if n = newname then some b else if n = oldname then none else fs n)

/-- The errors `SetPasswd` returns. -/
inductive SetErr (β : Type)
  | noUsername
  | salt (e : β)
  | matchFailed (e : Option β)
  | readFile
  | readAll (e : Csv.ParseErr)
  | tempFile
  | remove
  | rename
  deriving DecidableEq, Repr

/-- The header row `SetPasswd` writes first. -/
def headerRow : List Str := ["#username".toList, "salt".toList, "authCookie".toList]

/-- The loop `for i := range records` of `SetPasswd`: every record of `uname` gets the
new salt and hash. -/
def updateRecords (uname salt hash : Str) (records : List (List Str)) : List (List Str) :=
  records.map fun r => if r.getD 0 [] = uname then (r.set 1 salt).set 2 hash else r

/-- The flag `recFound` after that loop. -/
def recFound (uname : Str) (records : List (List Str)) : Bool :=
  records.any fun r => r.getD 0 [] = uname

/-- The records `SetPasswd` writes behind the header. -/
def newRecords (uname salt hash : Str) (records : List (List Str)) : List (List Str) :=
  if recFound uname records then updateRecords uname salt hash records
  else updateRecords uname salt hash records ++ [[uname, salt, hash]]

/-- Go `SetPasswd`, on the file system `fs`; `tmpName` is the name `ioutil.TempFile`
picks. Returns the file system afterwards. -/
def SetPasswd {β : Type} (bc : Bcrypt β) (tmpName : String) (fs : FS)
    (uname passwd : Str) (passwdFName : String) : Except (SetErr β) FS :=
  if uname = [] then .error .noUsername
  else
    match bc.Salt 12 with
    | .error e => .error (.salt e)
    | .ok salt =>
      match bc.Hash passwd salt with
      | .error e => .error (.matchFailed (some e))
      | .ok hash =>
        if ¬ bc.Match passwd hash then .error (.matchFailed none)
        else
          match fs.ReadFile passwdFName with
          | .error _ => .error .readFile
          | .ok b =>
            match Csv.ReadAll b with
            | .error e => .error (.readAll e)
            | .ok records =>
              let out := Csv.Write headerRow ++ Csv.WriteAll (newRecords uname salt hash records)
              match fs.TempFile tmpName out with
              | none => .error .tempFile
              | some fs1 =>
                match fs1.Remove passwdFName with
                | none => .error .remove
                | some fs2 =>
                  match fs2.Rename tmpName passwdFName with
                  | none => .error .rename
                  | some fs3 => .ok fs3

/-- A sample of the bcrypt interface for concrete runs: salts have 29 characters and the
digest is the salt followed by the secret. -/
def sampleBcrypt : Bcrypt Unit :=
  { Salt := fun _ => .ok "$2a$12$abcdefghijklmnopqrstuv".toList
    Hash := fun p s => if s.length < 29 then .error () else .ok (s.take 29 ++ p)
    Match := fun p h => decide (h = h.take 29 ++ p) }

/-- A sample file system: a store `passwd` holding the header and one record. -/
def sampleFS : FS := fun n =>
  if n = "passwd" then
    some "#username:salt:authCookie\nbob:$2a$12$abcdefghijklmnopqrstuv:$2a$12$abcdefghijklmnopqrstuvhunter2\n".toList
  else none

/-- The sample file system after `SetPasswd` has entered `uname` with `passwd`. -/
def sampleFSAfter (uname passwd : Str) : FS :=
  match SetPasswd sampleBcrypt "xs-passwd1" sampleFS uname passwd "passwd" with
  | .ok fs => fs
  | .error _ => sampleFS

/-- A sample reading context over the sample file system. -/
def sampleCtx : AuthCtx Unit :=
  { reader := sampleFS.ReadFile, userlookup := fun _ => true }

/-- A sample reading context over a store of three fields a row whose one record, for
`bob`, holds a salt that `sampleBcrypt` does not accept. -/
def sampleBadSaltCtx : AuthCtx Unit :=
  { reader := fun _ => .ok "bob:badsalt:h\n".toList, userlookup := fun _ => true }

/-- Go `strings.Split(s, sep)` for a one-character separator; `cur` holds the piece
read so far. -/
def splitOn (sep : Char) : Str → Str → List Str
  | cur, [] => [cur]
  | cur, c :: cs => if c = sep then cur :: splitOn sep [] cs else splitOn sep (cur ++ [c]) cs

/-- The errors `VerifyPass` returns: the reader's, `"Empty shadow file!"`, `"nil hash!"`,
or the one of `passlib.VerifyNoUpgrade`. -/
inductive VerifyErr (ρ π : Type)
  | reader (e : ρ)
  | emptyShadow
  | nilHash
  | passlib (e : π)
  deriving DecidableEq, Repr

/-- The name of the shadow file for `runtime.GOOS`. -/
def pwFileName (goos : String) : String :=
  if goos = "linux" then "/etc/shadow"
  else if goos = "freebsd" then "/etc/master.passwd"
  else "unsupported"

/-- The loop of `VerifyPass` over the lines: the hash of the first line whose first field
is `user` (the empty string when there is none), or `none` when reading `lFields[1]`
indexes out of range. -/
def findHash (user : Str) : List Str → Option Str
  | [] => some []
  | line :: rest =>
    let lFields := splitOn ':' [] line
    if lFields.getD 0 [] = user then lFields.get? 1
    else findHash user rest

/-- Go `VerifyPass`; `none` is a run-time panic, `some (ok, err)` the returned pair.
`verify` is `passlib.VerifyNoUpgrade`, returning its error if any. -/
def VerifyPass {ρ π : Type} (ctx : AuthCtx ρ) (verify : Str → Str → Option π)
    (goos : String) (user password : Str) : Option (Bool × Option (VerifyErr ρ π)) :=
  match ctx.reader (pwFileName goos) with
  | .error e => some (false, some (.reader e))
  | .ok pwFileData =>
    let pwLines := splitOn '\n' [] pwFileData
    if pwLines.length < 1 then some (false, some .emptyShadow)
    else
      match findHash user pwLines with
      | none => none
      | some hash =>
        if hash.length = 0 then some (false, some .nilHash)
        else
          match verify password hash with
          | some pe => some (false, some (.passlib pe))
          | none => some (true, none)

end Lpasswd

/-! ## `tools/tools.go` -/

/-- A request payload: bytes, each below 256. -/
abbrev Bytes := List Nat

/-- The bytes of an ASCII text. -/
def ascii (s : String) : Bytes := s.toList.map Char.toNat

namespace Tools

/-- Go `binary.BigEndian.Uint32`: `none` when the buffer has fewer than four bytes (the
bounds check panics). -/
def Uint32 : Bytes → Option Nat
  | b0 :: b1 :: b2 :: b3 :: _ =>
    some (b3 % 256 + (b2 % 256) * 2 ^ 8 + (b1 % 256) * 2 ^ 16 + (b0 % 256) * 2 ^ 24)
  | _ => none

/-- Go `ParseDims`: width then height; `none` is a panic. -/
def ParseDims (b : Bytes) : Option (Nat × Nat) :=
  match Uint32 b with
  | none => none
  | some w =>
    if b.length < 4 then none
    else
      match Uint32 (b.drop 4) with
      | none => none
      | some h => some (w, h)

/-- Go `Winsize` (the two unused fields left out). -/
structure Winsize where
  Height : Nat
  Width : Nat
  deriving DecidableEq, Repr

/-- The `Winsize` that `SetWinsize` hands to the `TIOCSWINSZ` ioctl: the `uint16`
conversions of `w` and `h`. -/
def SetWinsize (w h : Nat) : Winsize :=
  { Width := w % 2 ^ 16, Height := h % 2 ^ 16 }

end Tools

/-! ## `yisshd.go` and `forward/forward.go` -/

/-- The reasons of `ssh.RejectionReason` used here. -/
inductive RejectionReason
  | UnknownChannelType
  | ConnectionFailed
  deriving DecidableEq, Repr

/-- What becomes of a channel-open event. `tunnel` stands for a channel handed to
`forward.DirectTcpIpHandler`. -/
inductive Dispatch
  | rejected (reason : RejectionReason) (message : String)
  | acceptFailed
  | ptyFailed
  | session
  | tunnel
  deriving DecidableEq, Repr

/-- The head of Go `handleChannel`, up to the start of the request goroutine.
`acceptOk` and `ptyOk` tell whether `newChannel.Accept()` and `pty.Open()` succeed. -/
def handleChannel (acceptOk ptyOk : Bool) (t : String) : Dispatch :=
  if t ≠ "session" then .rejected .UnknownChannelType ("unknown channel type: " ++ t)
  else if ¬ acceptOk then .acceptFailed
  else if ¬ ptyOk then .ptyFailed
  else .session

/-- Go `handleChannels`: every channel-open event goes to `handleChannel`. -/
def handleChannels (acceptOk ptyOk : Bool) (chans : List String) : List Dispatch :=
  chans.map (handleChannel acceptOk ptyOk)

/-- Go `DefaultShell`. -/
def DefaultShell : Bytes := ascii "sh"

/-- The variable `shell` of `handleChannel`, from the value of `$SHELL`. -/
def shellOf (getenv : Bytes) : Bytes :=
  if getenv = [] then DefaultShell else getenv

/-- Go slice expression `p[lo:hi]`; `none` is the out-of-range panic. The capacity of a
payload is taken to be its length. -/
def slice (p : Bytes) (lo hi : Nat) : Option Bytes :=
  if lo ≤ hi ∧ hi ≤ p.length then some ((p.take hi).drop lo) else none

/-- Go slice expression `p[lo:]`. -/
def sliceFrom (p : Bytes) (lo : Nat) : Option Bytes :=
  if lo ≤ p.length then some (p.drop lo) else none

/-- Go `ssh.Request`, as far as the handler reads it. -/
structure Request where
  type : String
  Payload : Bytes
  deriving DecidableEq, Repr

/-- What the request goroutine of a session channel has done so far. -/
structure Session where
  /-- the `ok` of every `req.Reply(ok, nil)` call, in order -/
  replies : List Bool
  /-- the argument vector of every child process started, in order -/
  started : List (List Bytes)
  /-- the size last set on the pty master -/
  winsize : Option Tools.Winsize
  /-- how many pairs of copy loops the `shell` case has started -/
  bridges : Nat
  /-- how many sftp servers the `subsystem` case has started -/
  sftp : Nat
  /-- whether `PtyRun` has closed the slave end `tty` -/
  ttyClosed : Bool
  deriving DecidableEq, Repr

/-- The state when the goroutine starts. -/
def Session.init : Session :=
  { replies := [], started := [], winsize := none, bridges := 0, sftp := 0, ttyClosed := false }

/-- The process environment of the handler: the shell, and whether `cmd.Start()` of an
argument vector succeeds. -/
structure Env where
  shell : Bytes
  start : List Bytes → Bool

/-- A pass of the request loop: it returns to the `for`, or the goroutine panics. -/
inductive Outcome
  | running (s : Session)
  | panicked (s : Session)
  deriving DecidableEq, Repr

/-- The case `"exec"`. -/
def handleExec (env : Env) (s : Session) (payload : Bytes) : Outcome :=
  match payload.get? 3 with
  | none => .panicked s
  | some n =>
    match slice payload 4 ((n + 4) % 256) with
    | none => .panicked s
    | some command =>
      if env.start [env.shell, ascii "-c", command] then
        .running { s with
          started := s.started ++ [[env.shell, ascii "-c", command]]
          replies := s.replies ++ [true] }
      else .running s

/-- The case `"shell"`. -/
def handleShell (env : Env) (s : Session) (payload : Bytes) : Outcome :=
  .running { s with
    started := if env.start [env.shell] then s.started ++ [[env.shell]] else s.started
    ttyClosed := true
    bridges := s.bridges + 1
    replies := s.replies ++ [decide (payload.length = 0)] }

/-- The case `"pty-req"`. -/
def handlePtyReq (s : Session) (payload : Bytes) : Outcome :=
  match payload.get? 3 with
  | none => .panicked s
  | some termLen =>
    match slice payload 4 ((termLen + 4) % 256) with
    | none => .panicked s
    | some _ =>
      match sliceFrom payload ((termLen + 4) % 256) with
      | none => .panicked s
      | some b =>
        match Tools.ParseDims b with
        | none => .panicked s
        | some (w, h) =>
          .running { s with
            winsize := some (Tools.SetWinsize w h)
            replies := s.replies ++ [true] }

/-- The case `"subsystem"`. -/
def handleSubsystem (s : Session) (payload : Bytes) : Outcome :=
  match sliceFrom payload 4 with
  | none => .panicked s
  | some name =>
    if name = ascii "sftp" then
      .running { s with sftp := s.sftp + 1, replies := s.replies ++ [true] }
    else .running { s with replies := s.replies ++ [false] }

/-- The case `"window-change"`. -/
def handleWindowChange (s : Session) (payload : Bytes) : Outcome :=
  match Tools.ParseDims payload with
  | none => .panicked s
  | some (w, h) => .running { s with winsize := some (Tools.SetWinsize w h) }

/-- The body of `for req := range requests` in `handleChannel`. -/
def handleRequest (env : Env) (s : Session) (req : Request) : Outcome :=
  if req.type = "exec" then handleExec env s req.Payload
  else if req.type = "shell" then handleShell env s req.Payload
  else if req.type = "pty-req" then handlePtyReq s req.Payload
  else if req.type = "subsystem" then handleSubsystem s req.Payload
  else if req.type = "window-change" then handleWindowChange s req.Payload
  else .running { s with replies := s.replies ++ [false] }

/-- The request loop over the requests of one channel; a panic ends it. -/
def handleRequests (env : Env) : Session → List Request → Outcome
  | s, [] => .running s
  | s, req :: rest =>
    match handleRequest env s req with
    | .running s1 => handleRequests env s1 rest
    | .panicked s1 => .panicked s1

/-- The state of an outcome. -/
def Outcome.state : Outcome → Session
  | .running s => s
  | .panicked s => s

/-- A bridge and its `sync.Once`: how often the channel and its peer (the pty master `f`
of a shell, the socket `dconn` of a tunnel) have been closed. -/
structure Bridge where
  onceDone : Bool
  channelCloses : Nat
  peerCloses : Nat
  deriving DecidableEq, Repr

/-- A bridge whose loops run. -/
def Bridge.init : Bridge := { onceDone := false, channelCloses := 0, peerCloses := 0 }

/-- Go `sync.Once.Do`. -/
def onceDo (f : Bridge → Bridge) (b : Bridge) : Bridge :=
  if b.onceDone then b else f { b with onceDone := true }

/-- The closure `cl` of the `shell` case: `connection.Close()`. -/
def shellCl (b : Bridge) : Bridge :=
  { b with channelCloses := b.channelCloses + 1 }

/-- The closure `cl` of `DirectTcpIpHandler`: `ch.Close()` and `dconn.Close()`. -/
def tunnelCl (b : Bridge) : Bridge :=
  { b with channelCloses := b.channelCloses + 1, peerCloses := b.peerCloses + 1 }

/-- The two copy goroutines of a bridge. -/
inductive CopyLoop
  | toChannel
  | fromChannel
  deriving DecidableEq, Repr

/-- The end of a copy goroutine of the shell bridge: `once.Do(cl)`. -/
def shellLoopDone (b : Bridge) (_ : CopyLoop) : Bridge :=
  onceDo shellCl b

/-- The end of a copy goroutine of a tunnel: `once.Do(cl)`. -/
def tunnelLoopDone (b : Bridge) (_ : CopyLoop) : Bridge :=
  onceDo tunnelCl b

/-- The shell bridge after its copy loops have finished in the given order. -/
def shellBridge (order : List CopyLoop) : Bridge :=
  order.foldl shellLoopDone Bridge.init

/-- The tunnel bridge after its copy loops have finished in the given order. -/
def tunnelBridge (order : List CopyLoop) : Bridge :=
  order.foldl tunnelLoopDone Bridge.init

/-- The wire form of a `uint32` (RFC 4251): four bytes, most significant first. -/
def be32 (n : Nat) : Bytes :=
  [n / 2 ^ 24 % 256, n / 2 ^ 16 % 256, n / 2 ^ 8 % 256, n % 256]

/-- The wire form of a `string` (RFC 4251): its length as a `uint32`, then its bytes. -/
def sshString (b : Bytes) : Bytes :=
  be32 b.length ++ b

/-- A sample environment: the default shell, and every process starts. -/
def sampleEnv : Env :=
  { shell := DefaultShell, start := fun _ => true }

/-- A sample context whose reader returns a shadow file with one entry, for `root`. -/
def sampleShadow : Lpasswd.AuthCtx Unit :=
  { reader := fun _ => .ok "root:$6$salt$digest:19000:0:99999:7:::\n".toList
    userlookup := fun _ => true }

/-- A sample context whose reader returns a shadow file with an entry for `root` and a
line `bob` that holds no colon. -/
def sampleShadowBare : Lpasswd.AuthCtx Unit :=
  { reader := fun _ => .ok "root:$6$salt$digest:19000:0:99999:7:::\nbob\n".toList
    userlookup := fun _ => true }

end Yisshd

namespace Yisshd

namespace Csv

/-! ## Reading back what the writer wrote -/

theorem rawLines_line (l : Str) (hl : '\n' ∉ l) (cur rest : Str) :
    rawLines cur (l ++ '\n' :: rest) = (cur ++ l ++ ['\n']) :: rawLines [] rest := by
  induction l generalizing cur with
  | nil => simp [rawLines]
  | cons c cs ih =>
    have hc : c ≠ '\n' := fun h => hl (by simp [h])
    have hcs : '\n' ∉ cs := fun h => hl (by simp [h])
    simp [rawLines, hc, ih hcs]

theorem normLine_line (l : Str) (hl : l.getLast? ≠ some '\r') :
    normLine (l ++ ['\n']) = l ++ ['\n'] := by
  unfold normLine
  have h1 : (l ++ ['\n']).getLast? = some '\n' := by simp
  simp only [h1, ne_eq, not_true_eq_false, false_and, if_false]
  rw [if_neg]
  rintro ⟨h2, h3, -⟩
  apply hl
  rcases List.eq_nil_or_concat l with rfl | ⟨l', c, rfl⟩
  · simp at h2
  · simp at h3 ⊢
    rw [List.getElem_append_right (by simp)] at h3
    simpa using h3

theorem scan_plain_colon (g : Str) (hg : ∀ c ∈ g, c ≠ ':' ∧ c ≠ '"' ∧ c ≠ '\n')
    (fields : List Str) (buf rest : Str) (hbuf : '"' ∉ buf) :
    scan .plain fields buf (g ++ ':' :: rest) = scan .start (fields ++ [buf ++ g]) [] rest := by
  induction g generalizing buf with
  | nil => simp [scan, hbuf]
  | cons c cs ih =>
    obtain ⟨h1, h2, h3⟩ := hg c (by simp)
    have hcs : ∀ c ∈ cs, c ≠ ':' ∧ c ≠ '"' ∧ c ≠ '\n' := fun x hx => hg x (by simp [hx])
    have hb : '"' ∉ buf ++ [c] := by simp [hbuf, Ne.symm h2]
    simp [scan, h1, h3, ih hcs (buf ++ [c]) hb]

theorem scan_plain_end (g : Str) (hg : ∀ c ∈ g, c ≠ ':' ∧ c ≠ '"' ∧ c ≠ '\n')
    (fields : List Str) (buf : Str) (hbuf : '"' ∉ buf) :
    scan .plain fields buf (g ++ ['\n']) = .done (fields ++ [buf ++ g]) := by
  induction g generalizing buf with
  | nil => simp [scan, endPlain, hbuf]
  | cons c cs ih =>
    obtain ⟨h1, h2, h3⟩ := hg c (by simp)
    have hcs : ∀ c ∈ cs, c ≠ ':' ∧ c ≠ '"' ∧ c ≠ '\n' := fun x hx => hg x (by simp [hx])
    have hb : '"' ∉ buf ++ [c] := by simp [hbuf, Ne.symm h2]
    simp [scan, h1, h3, ih hcs (buf ++ [c]) hb]

theorem scan_quoted_escape (g : Str) (fields : List Str) (buf tail : Str) :
    scan .quoted fields buf (escape g ++ '"' :: tail) = scan .afterQuote fields (buf ++ g) tail := by
  induction g generalizing buf with
  | nil => simp [escape, scan]
  | cons c cs ih =>
    by_cases hc : c = '"'
    · subst hc
      simp [escape, scan, ih]
    · simp [escape, scan, hc, ih]

theorem plain_of_not_needsQuotes (f : Str) (h : fieldNeedsQuotes f = false) :
    ∀ c ∈ f, c ≠ ':' ∧ c ≠ '"' ∧ c ≠ '\n' ∧ c ≠ '\r' := by
  cases f with
  | nil => simp
  | cons a as =>
    intro c hc
    unfold fieldNeedsQuotes at h
    by_cases h1 : (a :: as) = ['\\', '.']
    · simp [h1] at h
    · simp only [h1, if_false] at h
      by_cases h2 : (a :: as).any (fun x => x = '\n' || x = '\r' || x = '"' || x = ':') = true
      · simp [h2] at h
      · simp only [Bool.not_eq_true] at h2
        rw [List.any_eq_false] at h2
        have := h2 c hc
        simp at this
        tauto

theorem scan_field_colon (f : Str) (fields : List Str) (b0 rest : Str) :
    scan .start fields b0 (writeField f ++ ':' :: rest) = scan .start (fields ++ [f]) [] rest := by
  by_cases h : fieldNeedsQuotes f = true
  · simp only [writeField, h, if_true, List.cons_append, List.append_assoc]
    simp [scan, scan_quoted_escape]
  · simp only [Bool.not_eq_true] at h
    have hp := plain_of_not_needsQuotes f h
    simp only [writeField, h, Bool.false_eq_true, if_false]
    cases f with
    | nil => simp [scan]
    | cons c g =>
      obtain ⟨h1, h2, h3, -⟩ := hp c (by simp)
      have hg : ∀ x ∈ g, x ≠ ':' ∧ x ≠ '"' ∧ x ≠ '\n' := fun x hx =>
        ⟨(hp x (by simp [hx])).1, (hp x (by simp [hx])).2.1, (hp x (by simp [hx])).2.2.1⟩
      have hb : '"' ∉ [c] := by simp [Ne.symm h2]
      simp [scan, h1, h2, h3, scan_plain_colon g hg fields [c] rest hb]

theorem scan_field_end (f : Str) (fields : List Str) (b0 : Str) :
    scan .start fields b0 (writeField f ++ ['\n']) = .done (fields ++ [f]) := by
  by_cases h : fieldNeedsQuotes f = true
  · simp only [writeField, h, if_true, List.cons_append, List.append_assoc]
    simp [scan, scan_quoted_escape]
  · simp only [Bool.not_eq_true] at h
    have hp := plain_of_not_needsQuotes f h
    simp only [writeField, h, Bool.false_eq_true, if_false]
    cases f with
    | nil => simp [scan, endPlain]
    | cons c g =>
      obtain ⟨h1, h2, h3, -⟩ := hp c (by simp)
      have hg : ∀ x ∈ g, x ≠ ':' ∧ x ≠ '"' ∧ x ≠ '\n' := fun x hx =>
        ⟨(hp x (by simp [hx])).1, (hp x (by simp [hx])).2.1, (hp x (by simp [hx])).2.2.1⟩
      have hb : '"' ∉ [c] := by simp [Ne.symm h2]
      simp [scan, h1, h2, h3, scan_plain_end g hg fields [c] hb]

theorem scan_record (r : List Str) (hr : r ≠ []) (fields : List Str) (b0 : Str) :
    scan .start fields b0 (joinFields r ++ ['\n']) = .done (fields ++ r) := by
  induction r generalizing fields b0 with
  | nil => exact absurd rfl hr
  | cons f fs ih =>
    cases fs with
    | nil => simp [joinFields, scan_field_end]
    | cons g gs =>
      simp only [joinFields, List.append_assoc, List.cons_append]
      rw [scan_field_colon]
      have := ih (by simp) (fields ++ [f]) []
      simp only [List.append_assoc, List.cons_append] at this
      simpa using this

theorem mem_escape (c : Char) (f : Str) (h : c ∈ escape f) : c ∈ f := by
  induction f with
  | nil => simp [escape] at h
  | cons a as ih =>
    by_cases ha : a = '"'
    · subst ha
      simp only [escape, if_true, List.mem_cons] at h
      rcases h with h | h | h
      · simp [h]
      · simp [h]
      · simp [ih h]
    · simp only [escape, ha, if_false, List.mem_cons] at h
      rcases h with h | h
      · simp [h]
      · simp [ih h]

theorem writeField_noNL (f : Str) (hf : '\n' ∉ f) : '\n' ∉ writeField f := by
  unfold writeField
  split
  · intro h
    simp only [List.mem_cons, List.mem_append, List.mem_singleton] at h
    rcases h with h | h | h
    · exact absurd h (by decide)
    · exact hf (mem_escape _ _ h)
    · rcases h with h | h
      · exact absurd h (by decide)
      · simp at h
  · exact hf

theorem joinFields_noNL (r : List Str) (hr : ∀ f ∈ r, '\n' ∉ f) : '\n' ∉ joinFields r := by
  induction r with
  | nil => simp [joinFields]
  | cons f fs ih =>
    have hf := writeField_noNL f (hr f (by simp))
    have hfs := ih (fun g hg => hr g (by simp [hg]))
    cases fs with
    | nil => simpa [joinFields] using hf
    | cons g gs =>
      simp only [joinFields, List.mem_append, List.mem_cons, not_or]
      exact ⟨hf, by decide, by simpa [joinFields] using hfs⟩

theorem writeField_last (f : Str) : (writeField f).getLast? ≠ some '\r' := by
  unfold writeField
  split
  · rw [← List.cons_append, List.getLast?_append]
    simp
  · rename_i h
    simp only [Bool.not_eq_true] at h
    intro hl
    have hm : '\r' ∈ f := List.mem_of_getLast?_eq_some hl
    exact (plain_of_not_needsQuotes f h _ hm).2.2.2 rfl

theorem joinFields_last (r : List Str) : (joinFields r).getLast? ≠ some '\r' := by
  induction r with
  | nil => simp [joinFields]
  | cons f fs ih =>
    cases fs with
    | nil => simpa [joinFields] using writeField_last f
    | cons g gs =>
      simp only [joinFields] at ih ⊢
      rw [List.getLast?_append]
      cases hj : (joinFields (g :: gs)) with
      | nil => simp
      | cons a as =>
        rw [hj] at ih
        intro h
        apply ih
        rw [List.getLast?_cons_cons] at h
        simpa using h

theorem readLines_Write (r : List Str) (hr : ∀ f ∈ r, '\n' ∉ f) (rest : Str) :
    readLines (Write r ++ rest) = Write r :: readLines rest := by
  unfold readLines Write
  rw [List.append_assoc, List.singleton_append, rawLines_line _ (joinFields_noNL r hr)]
  simp [normLine_line _ (joinFields_last r)]

theorem readLines_WriteAll (rs : List (List Str)) (hrs : ∀ r ∈ rs, ∀ f ∈ r, '\n' ∉ f) :
    readLines (WriteAll rs) = rs.map Write := by
  induction rs with
  | nil => simp [WriteAll, readLines, rawLines]
  | cons r rs ih =>
    simp only [WriteAll, List.map_cons]
    rw [readLines_Write r (hrs r (by simp)), ih (fun r hr => hrs r (by simp [hr]))]

theorem lengthNL_Write (r : List Str) : lengthNL (Write r) = 1 := by
  simp [lengthNL, Write]

theorem length_Write (r : List Str) (hr : r.length = 3) : (Write r).length ≠ 1 := by
  match r, hr with
  | [a, b, c], _ =>
    simp only [Write, joinFields, List.length_append, List.length_cons, List.length_nil]
    omega

theorem readStream_Write (r : List Str) (hr : r.length = 3) (ls : List Str) :
    readStream none (Write r :: ls) =
      if isCommentRow r then readStream none ls else .ok r :: readStream none ls := by
  have hne : r ≠ [] := by
    intro h
    simp [h] at hr
  by_cases hc : (Write r).head? = some '#'
  · simp [readStream, isCommentRow, hc]
  · have hs : scan .start [] [] (Write r) = .done r := by
      have := scan_record r hne [] []
      simpa [Write] using this
    simp [readStream, isCommentRow, hc, lengthNL_Write, length_Write r hr, hs, hr]

theorem readStream_written (rs : List (List Str)) (h3 : ∀ r ∈ rs, r.length = 3) :
    readStream none (rs.map Write) = (rs.filter (fun r => !isCommentRow r)).map .ok := by
  induction rs with
  | nil => simp [readStream]
  | cons r rs ih =>
    have ih' := ih (fun x hx => h3 x (by simp [hx]))
    rw [List.map_cons, readStream_Write r (h3 r (by simp)), ih']
    by_cases hc : isCommentRow r = true
    · simp [hc]
    · simp [hc]

theorem NewReader_written (hdr : List Str) (hh : isCommentRow hdr = true)
    (hhnl : ∀ f ∈ hdr, '\n' ∉ f) (rs : List (List Str)) (h3 : ∀ r ∈ rs, r.length = 3)
    (hnl : ∀ r ∈ rs, ∀ f ∈ r, '\n' ∉ f) :
    NewReader (Write hdr ++ WriteAll rs) = (rs.filter (fun r => !isCommentRow r)).map .ok := by
  unfold NewReader
  rw [readLines_Write hdr hhnl, readLines_WriteAll rs hnl]
  have hc : (Write hdr).head? = some '#' := by simpa [isCommentRow] using hh
  simp only [readStream, hc, if_true]
  exact readStream_written rs h3

theorem isCommentRow_of_head (f : Str) (fs : List Str) (hf : f.head? ≠ some '#') :
    isCommentRow (f :: fs) = false := by
  have key : (writeField f ++ (':' :: joinFields fs ++ ['\n'])).head? ≠ some '#' ∧
      (writeField f ++ ['\n']).head? ≠ some '#' := by
    unfold writeField
    split
    · simp
    · cases f with
      | nil => simp
      | cons c g => simpa using hf
  cases fs with
  | nil => simpa [isCommentRow, Write, joinFields] using key.2
  | cons g gs => simpa [isCommentRow, Write, joinFields] using key.1

theorem collect_map_ok (rs : List (List Str)) : collect (rs.map .ok) = .ok rs := by
  induction rs with
  | nil => rfl
  | cons r rs ih => simp [collect, ih]

theorem eq_map_ok_of_collect (st : List (Except ParseErr (List Str))) (rs : List (List Str))
    (h : collect st = .ok rs) : st = rs.map .ok := by
  induction st generalizing rs with
  | nil =>
    simp only [collect, Except.ok.injEq] at h
    simp [← h]
  | cons x xs ih =>
    cases x with
    | error e => simp [collect] at h
    | ok r =>
      simp only [collect] at h
      cases hc : collect xs with
      | error e => simp [hc] at h
      | ok rs' =>
        simp only [hc, Except.ok.injEq] at h
        subst h
        simp [ih rs' hc]

theorem collect_ok_cons (f : List Str) (st : List (Except ParseErr (List Str)))
    (rs : List (List Str)) (h : collect (.ok f :: st) = .ok rs) :
    ∃ rs', collect st = .ok rs' ∧ rs = f :: rs' := by
  simp only [collect] at h
  cases hc : collect st with
  | error e => simp [hc] at h
  | ok rs' =>
    simp only [hc, Except.ok.injEq] at h
    exact ⟨rs', rfl, h.symm⟩

theorem readStream_length (ls : List Str) (p : Option (List Str × Str)) (rs : List (List Str))
    (h : collect (readStream p ls) = .ok rs) : ∀ r ∈ rs, r.length = 3 := by
  induction ls generalizing p rs with
  | nil =>
    cases p with
    | none =>
      simp only [readStream, collect, Except.ok.injEq] at h
      simp [← h]
    | some q => simp [readStream, collect] at h
  | cons l rest ih =>
    have emit : ∀ sc : LineScan,
        collect (match sc with
          | .done fields =>
            if fields.length ≠ 3 then [.error .fieldCount]
            else .ok fields :: readStream none rest
          | .more fields buf => readStream (some (fields, buf)) rest
          | .bad e => [.error e]) = .ok rs → ∀ r ∈ rs, r.length = 3 := by
      intro sc hsc
      cases sc with
      | done fields =>
        by_cases hl : fields.length = 3
        · simp only [hl, ne_eq, not_true_eq_false, if_false] at hsc
          obtain ⟨rs', h1, h2⟩ := collect_ok_cons _ _ _ hsc
          subst h2
          intro r hr
          rcases List.mem_cons.mp hr with h | h
          · rw [h]; exact hl
          · exact ih none rs' h1 r h
        · simp [hl, collect] at hsc
      | more fields buf => exact ih _ rs hsc
      | bad e => simp [collect] at hsc
    cases p with
    | none =>
      simp only [readStream] at h
      split at h
      · exact ih none rs h
      · split at h
        · exact ih none rs h
        · exact emit _ h
    | some q =>
      obtain ⟨fields, buf⟩ := q
      simp only [readStream] at h
      exact emit _ h

theorem ReadAll_length (b : Str) (rs : List (List Str)) (h : ReadAll b = .ok rs) :
    ∀ r ∈ rs, r.length = 3 :=
  readStream_length _ _ rs h

end Csv

namespace Lpasswd

open Csv

theorem checkRecord_congr {β : Type} (bc : Bcrypt β) (username auth : Str) (r r' : List Str)
    (h1 : r.getD 1 [] = r'.getD 1 []) (h2 : r.getD 2 [] = r'.getD 2 []) :
    checkRecord bc username auth r = checkRecord bc username auth r' := by
  simp only [checkRecord, h1, h2]

theorem authLoop_absent {β : Type} (bc : Bcrypt β) (auth u : Str) (recs : List (List Str))
    (h : ∀ r ∈ recs, r.getD 0 [] ≠ u) :
    authLoop bc auth u (recs.map .ok) =
      .broke (checkRecord bc nosuchuser auth dummyRecord) nosuchuser := by
  induction recs with
  | nil => simp [authLoop]
  | cons r rs ih =>
    have h0 : ¬ u = r.getD 0 [] := fun e => h r (by simp) e.symm
    simp only [List.map_cons, authLoop, h0, if_false]
    exact ih (fun x hx => h x (by simp [hx]))

theorem authLoop_present {β : Type} (bc : Bcrypt β) (auth u : Str)
    (pre : List (List Str)) (r : List Str) (post : List (List Str))
    (hpre : ∀ x ∈ pre, x.getD 0 [] ≠ u) (hr : r.getD 0 [] = u) :
    authLoop bc auth u ((pre ++ r :: post).map .ok) = .broke (checkRecord bc u auth r) u := by
  induction pre with
  | nil => simp only [List.nil_append, List.map_cons, authLoop, hr, if_true]
  | cons x xs ih =>
    have h0 : ¬ u = x.getD 0 [] := fun e => hpre x (by simp) e.symm
    simp only [List.cons_append, List.map_cons, authLoop, h0, if_false]
    exact ih (fun y hy => hpre y (by simp [hy]))

theorem authLoop_uniform {β : Type} (bc : Bcrypt β) (auth u salt hash : Str)
    (recs : List (List Str)) (hex : ∃ r ∈ recs, r.getD 0 [] = u)
    (hall : ∀ r ∈ recs, r.getD 0 [] = u → r.getD 1 [] = salt ∧ r.getD 2 [] = hash) :
    authLoop bc auth u (recs.map .ok) = .broke (checkRecord bc u auth [u, salt, hash]) u := by
  induction recs with
  | nil => simp at hex
  | cons x xs ih =>
    by_cases hx : x.getD 0 [] = u
    · obtain ⟨h1, h2⟩ := hall x (by simp) hx
      simp only [List.map_cons, authLoop, hx, if_true]
      rw [checkRecord_congr bc u auth x [u, salt, hash] (by simpa using h1) (by simpa using h2)]
    · have h0 : ¬ u = x.getD 0 [] := fun e => hx e.symm
      simp only [List.map_cons, authLoop, h0, if_false]
      apply ih
      · obtain ⟨r, hr, hru⟩ := hex
        rcases List.mem_cons.mp hr with h | h
        · exact absurd (h ▸ hru) hx
        · exact ⟨r, h, hru⟩
      · exact fun r hr => hall r (by simp [hr])

theorem updateRecords_mem (u salt hash : Str) (recs : List (List Str))
    (h3 : ∀ r ∈ recs, r.length = 3) (r' : List Str)
    (h : r' ∈ updateRecords u salt hash recs) :
    (r' ∈ recs ∧ r'.getD 0 [] ≠ u) ∨ r' = [u, salt, hash] := by
  simp only [updateRecords, List.mem_map] at h
  obtain ⟨r, hr, rfl⟩ := h
  by_cases hu : r.getD 0 [] = u
  · right
    match r, h3 r hr, hu with
    | [a, b, c], _, hu =>
      simp only [List.getD_cons_zero] at hu
      simp [hu]
  · left
    rw [if_neg hu]
    exact ⟨hr, hu⟩

theorem newRecords_mem (u salt hash : Str) (recs : List (List Str))
    (h3 : ∀ r ∈ recs, r.length = 3) (r' : List Str)
    (h : r' ∈ newRecords u salt hash recs) :
    (r' ∈ recs ∧ r'.getD 0 [] ≠ u) ∨ r' = [u, salt, hash] := by
  unfold newRecords at h
  split at h
  · exact updateRecords_mem u salt hash recs h3 r' h
  · rcases List.mem_append.mp h with h | h
    · exact updateRecords_mem u salt hash recs h3 r' h
    · right; simpa using h

theorem mem_newRecords (u salt hash : Str) (recs : List (List Str))
    (h3 : ∀ r ∈ recs, r.length = 3) : [u, salt, hash] ∈ newRecords u salt hash recs := by
  unfold newRecords
  split
  · rename_i hf
    simp only [recFound, List.any_eq_true, decide_eq_true_eq] at hf
    obtain ⟨r, hr, hru⟩ := hf
    simp only [updateRecords, List.mem_map]
    refine ⟨r, hr, ?_⟩
    match r, h3 r hr, hru with
    | [a, b, c], _, hru =>
      simp only [List.getD_cons_zero] at hru
      simp [hru]
  · simp

theorem SetPasswd_ok {β : Type} (bc : Bcrypt β) (tmpName : String) (fs fs' : FS)
    (uname passwd : Str) (passwdFName : String)
    (h : SetPasswd bc tmpName fs uname passwd passwdFName = .ok fs') :
    ∃ salt hash b recs, uname ≠ [] ∧ bc.Salt 12 = .ok salt ∧ bc.Hash passwd salt = .ok hash ∧
      fs passwdFName = some b ∧ ReadAll b = .ok recs ∧
      fs' passwdFName = some (Write headerRow ++ WriteAll (newRecords uname salt hash recs)) := by
  unfold SetPasswd at h
  split at h
  · simp at h
  rename_i hu
  split at h
  · simp at h
  rename_i salt hsalt
  split at h
  · simp at h
  rename_i hash hhash
  split at h
  · simp at h
  split at h
  · simp at h
  rename_i b hb
  split at h
  · simp at h
  rename_i recs hrecs
  simp only at h
  split at h
  · simp at h
  rename_i fs1 hfs1
  split at h
  · simp at h
  rename_i fs2 hfs2
  split at h
  · simp at h
  rename_i fs3 hfs3
  simp only [Except.ok.injEq] at h
  subst h
  have hfile : ∃ b', fs passwdFName = some b' ∧ b' = b := by
    unfold FS.ReadFile at hb
    split at hb
    · rename_i b' hb'
      simp only [Except.ok.injEq] at hb
      exact ⟨b', hb', hb⟩
    · simp at hb
  obtain ⟨b', hfile, rfl⟩ := hfile
  refine ⟨salt, hash, b', recs, hu, hsalt, hhash, hfile, hrecs, ?_⟩
  unfold FS.TempFile at hfs1
  split at hfs1
  · simp at hfs1
  rename_i htmp
  simp only [Option.some.injEq] at hfs1
  have hne : tmpName ≠ passwdFName := by
    intro e
    rw [e, hfile] at htmp
    simp at htmp
  unfold FS.Remove at hfs2
  split at hfs2
  · simp at hfs2
  simp only [Option.some.injEq] at hfs2
  unfold FS.Rename at hfs3
  split at hfs3
  · simp at hfs3
  rename_i out hout
  simp only [Option.some.injEq] at hfs3
  subst hfs3
  subst hfs2
  subst hfs1
  simp only [hne, if_false, if_true] at hout
  simp only [Option.some.injEq] at hout
  simp [hout]

theorem headerRow_comment : isCommentRow headerRow = true := by decide

theorem headerRow_noNL : ∀ f ∈ headerRow, '\n' ∉ f := by decide

theorem auth_after_set {β : Type} (bc : Bcrypt β) (tmpName : String) (fs fs' : FS)
    (u s : Str) (fname : String) (userlookup : Str → Bool)
    (b : Str) (recs : List (List Str)) (salt hash : Str)
    (hfile : fs fname = some b) (hrecs : ReadAll b = .ok recs)
    (hfmt : ∀ r ∈ recs, ∀ f ∈ r, '\n' ∉ f)
    (hsalt : bc.Salt 12 = .ok salt) (hhash : bc.Hash s salt = .ok hash)
    (hsaltnl : '\n' ∉ salt) (hhashnl : '\n' ∉ hash)
    (hu2 : u.head? ≠ some '#') (hu3 : '\n' ∉ u)
    (hset : SetPasswd bc tmpName fs u s fname = .ok fs') (auth : Str) :
    AuthUserByPasswd ⟨fs'.ReadFile, userlookup⟩ bc false u auth fname =
      checkRecord bc u auth [u, salt, hash] := by
  obtain ⟨salt', hash', b', recs', -, hs', hh', hf', hr', hout⟩ :=
    SetPasswd_ok bc tmpName fs fs' u s fname hset
  rw [hsalt] at hs'
  simp only [Except.ok.injEq] at hs'
  subst hs'
  rw [hhash] at hh'
  simp only [Except.ok.injEq] at hh'
  subst hh'
  rw [hfile] at hf'
  simp only [Option.some.injEq] at hf'
  subst hf'
  rw [hrecs] at hr'
  simp only [Except.ok.injEq] at hr'
  subst hr'
  have h3 := ReadAll_length b recs hrecs
  have hmem := newRecords_mem u salt hash recs h3
  have hn3 : ∀ r ∈ newRecords u salt hash recs, r.length = 3 := by
    intro r hr
    rcases hmem r hr with h | h
    · exact h3 r h.1
    · simp [h]
  have hnnl : ∀ r ∈ newRecords u salt hash recs, ∀ f ∈ r, '\n' ∉ f := by
    intro r hr
    rcases hmem r hr with h | h
    · exact hfmt r h.1
    · subst h
      intro f hf
      simp only [List.mem_cons, List.mem_singleton, List.not_mem_nil, or_false] at hf
      rcases hf with rfl | rfl | rfl
      · exact hu3
      · exact hsaltnl
      · exact hhashnl
  have hrd := NewReader_written headerRow headerRow_comment headerRow_noNL _ hn3 hnnl
  have hloop := authLoop_uniform bc auth u salt hash
    ((newRecords u salt hash recs).filter (fun r => !isCommentRow r))
    ⟨[u, salt, hash], by
      simp only [List.mem_filter, Bool.not_eq_true']
      exact ⟨mem_newRecords u salt hash recs h3, isCommentRow_of_head u _ hu2⟩, rfl⟩
    (by
      intro r hr hru
      rcases hmem r (List.mem_of_mem_filter hr) with h | h
      · exact absurd hru h.2
      · subst h
        exact ⟨rfl, rfl⟩)
  simp only [AuthUserByPasswd, FS.ReadFile, hout, hrd, hloop]
  simp

end Lpasswd
end Yisshd

namespace Yisshd

open Csv Lpasswd

/-! ## The claims -/

/-- C1 (amended). Let `SetPasswd(u, s, file)` succeed on a readable store whose fields hold
no line break, for a user name `u` that is not the reserved `$nosuchuser$`, does not begin
with `#` and holds no line break, the salt and digest produced by bcrypt holding no line
break either. Then `AuthUserByPasswd(ctx, false, u, s, file)` returns `valid = true` with
a nil error, and `AuthUserByPasswd(ctx, false, u, s', file)` returns `valid = false` for
every secret `s'` whose bcrypt result under the new salt differs from that of `s`. -/
theorem setPasswd_then_auth {β : Type} (bc : Bcrypt β) (tmpName : String) (fs fs' : FS)
    (u s : Str) (fname : String) (userlookup : Str → Bool)
    (b : Str) (recs : List (List Str)) (salt : Str)
    (hfile : fs fname = some b) (hrecs : ReadAll b = .ok recs)
    (hfmt : ∀ r ∈ recs, ∀ f ∈ r, '\n' ∉ f)
    (hsalt : bc.Salt 12 = .ok salt) (hsaltnl : '\n' ∉ salt)
    (hhashnl : ∀ h, bc.Hash s salt = .ok h → '\n' ∉ h)
    (hu1 : u ≠ nosuchuser) (hu2 : u.head? ≠ some '#') (hu3 : '\n' ∉ u)
    (hset : SetPasswd bc tmpName fs u s fname = .ok fs') :
    (AuthUserByPasswd ⟨fs'.ReadFile, userlookup⟩ bc false u s fname).valid = true ∧
    (AuthUserByPasswd ⟨fs'.ReadFile, userlookup⟩ bc false u s fname).err = none ∧
    ∀ s', bc.Hash s' salt ≠ bc.Hash s salt →
      (AuthUserByPasswd ⟨fs'.ReadFile, userlookup⟩ bc false u s' fname).valid = false := by
  obtain ⟨salt', hash, -, -, -, hs', hhash, -, -, -⟩ :=
    SetPasswd_ok bc tmpName fs fs' u s fname hset
  rw [hsalt] at hs'
  simp only [Except.ok.injEq] at hs'
  subst hs'
  have key := auth_after_set bc tmpName fs fs' u s fname userlookup b recs salt hash
    hfile hrecs hfmt hsalt hhash hsaltnl (hhashnl hash hhash) hu2 hu3 hset
  refine ⟨?_, ?_, ?_⟩
  · rw [key]
    simp [checkRecord, hhash, hu1]
  · rw [key]
    simp [checkRecord, hhash, hu1]
  · intro s' hs'
    rw [key]
    unfold checkRecord
    simp only [List.getD_cons_succ, List.getD_cons_zero]
    cases hh : bc.Hash s' salt with
    | error e => rfl
    | ok tmp =>
      have hne : tmp ≠ hash := by
        intro e
        apply hs'
        rw [hh, hhash, e]
      simp [hne]

/-- C1, witness: user `alice` with secret `secret` entered into the sample store. -/
theorem setPasswd_then_auth_witness :
    (AuthUserByPasswd ⟨(sampleFSAfter "alice".toList "secret".toList).ReadFile, fun _ => true⟩
        sampleBcrypt false "alice".toList "secret".toList "passwd").valid = true ∧
    (AuthUserByPasswd ⟨(sampleFSAfter "alice".toList "secret".toList).ReadFile, fun _ => true⟩
        sampleBcrypt false "alice".toList "secret".toList "passwd").err = none ∧
    ∀ s', sampleBcrypt.Hash s' "$2a$12$abcdefghijklmnopqrstuv".toList ≠
        sampleBcrypt.Hash "secret".toList "$2a$12$abcdefghijklmnopqrstuv".toList →
      (AuthUserByPasswd ⟨(sampleFSAfter "alice".toList "secret".toList).ReadFile, fun _ => true⟩
        sampleBcrypt false "alice".toList s' "passwd").valid = false :=
  setPasswd_then_auth sampleBcrypt "xs-passwd1" sampleFS
    (sampleFSAfter "alice".toList "secret".toList) "alice".toList "secret".toList "passwd"
    (fun _ => true)
    "#username:salt:authCookie\nbob:$2a$12$abcdefghijklmnopqrstuv:$2a$12$abcdefghijklmnopqrstuvhunter2\n".toList
    [["bob".toList, "$2a$12$abcdefghijklmnopqrstuv".toList,
      "$2a$12$abcdefghijklmnopqrstuvhunter2".toList]]
    "$2a$12$abcdefghijklmnopqrstuv".toList
    (by rfl) (by rfl) (by decide) (by rfl) (by decide)
    (by
      intro h hh
      have : h = "$2a$12$abcdefghijklmnopqrstuvsecret".toList := by
        have h2 : sampleBcrypt.Hash "secret".toList "$2a$12$abcdefghijklmnopqrstuv".toList =
            .ok "$2a$12$abcdefghijklmnopqrstuvsecret".toList := by rfl
        rw [h2] at hh
        exact (Except.ok.inj hh).symm
      rw [this]
      decide)
    (by decide) (by decide) (by decide) (by rfl)

/-- C1, counterexample: `SetPasswd` succeeds for the user name `$nosuchuser$` with the
secret `secret`, and `AuthUserByPasswd` with that same secret returns `valid = false`. -/
theorem setPasswd_nosuchuser_rejected :
    SetPasswd sampleBcrypt "xs-passwd1" sampleFS nosuchuser "secret".toList "passwd" =
        .ok (sampleFSAfter nosuchuser "secret".toList) ∧
    (AuthUserByPasswd ⟨(sampleFSAfter nosuchuser "secret".toList).ReadFile, fun _ => true⟩
        sampleBcrypt false nosuchuser "secret".toList "passwd").valid = false :=
  ⟨by rfl, by rfl⟩

/-- C2 (amended). On a store that parses (every data row has three fields), a user name
matching no record gets `valid = false` and the error `auth failure`, the same error as
a user name that is present, whose stored salt bcrypt accepts (it returns a digest) and
that is given a wrong password (the digest differs from the stored one), provided bcrypt
returns a digest for the salt of the built-in dummy entry; in both runs `bcrypt.Hash` is
called exactly once. -/
theorem absent_user_like_wrong_password {ρ β : Type} (ctx : AuthCtx ρ) (bc : Bcrypt β)
    (fname : String) (b : Str) (recs : List (List Str))
    (hread : ctx.reader fname = .ok b) (hstore : ReadAll b = .ok recs)
    (absent auth : Str) (habs : ∀ r ∈ recs, r.getD 0 [] ≠ absent)
    (hdummy : ∃ t, bc.Hash auth (dummyRecord.getD 1 []) = .ok t)
    (present auth' : Str) (pre : List (List Str)) (r : List Str) (post : List (List Str))
    (hsplit : recs = pre ++ r :: post) (hpre : ∀ x ∈ pre, x.getD 0 [] ≠ present)
    (hr : r.getD 0 [] = present)
    (hwrong : ∃ t, bc.Hash auth' (r.getD 1 []) = .ok t ∧ t ≠ r.getD 2 []) :
    (AuthUserByPasswd ctx bc false absent auth fname).valid = false ∧
    (AuthUserByPasswd ctx bc false present auth' fname).valid = false ∧
    (AuthUserByPasswd ctx bc false absent auth fname).err = some .authFailure ∧
    (AuthUserByPasswd ctx bc false present auth' fname).err = some .authFailure ∧
    (AuthUserByPasswd ctx bc false absent auth fname).hashCalls.length = 1 ∧
    (AuthUserByPasswd ctx bc false present auth' fname).hashCalls.length = 1 := by
  have hst : NewReader b = recs.map .ok := eq_map_ok_of_collect _ _ hstore
  have ha : AuthUserByPasswd ctx bc false absent auth fname =
      checkRecord bc nosuchuser auth dummyRecord := by
    simp only [AuthUserByPasswd, hread, hst, authLoop_absent bc auth absent recs habs]
    simp
  have hp : AuthUserByPasswd ctx bc false present auth' fname =
      checkRecord bc present auth' r := by
    simp only [AuthUserByPasswd, hread, hst, hsplit,
      authLoop_present bc auth' present pre r post hpre hr]
    simp
  obtain ⟨t, ht⟩ := hdummy
  obtain ⟨t', ht', hne⟩ := hwrong
  have h1 : ¬ (t = dummyRecord.getD 2 [] ∧ nosuchuser ≠ nosuchuser) := fun h => h.2 rfl
  have h2 : ¬ (t' = r.getD 2 [] ∧ present ≠ nosuchuser) := fun h => hne h.1
  rw [ha, hp]
  simp only [checkRecord, ht, ht', if_neg h1, if_neg h2, List.length_singleton, and_self]

/-- C2, witness: in the sample store `carol` is absent and `bob` is given the secret `x`. -/
theorem absent_user_like_wrong_password_witness :
    (AuthUserByPasswd sampleCtx sampleBcrypt false "carol".toList "pw".toList "passwd").valid
      = false ∧
    (AuthUserByPasswd sampleCtx sampleBcrypt false "bob".toList "x".toList "passwd").valid
      = false ∧
    (AuthUserByPasswd sampleCtx sampleBcrypt false "carol".toList "pw".toList "passwd").err
      = some .authFailure ∧
    (AuthUserByPasswd sampleCtx sampleBcrypt false "bob".toList "x".toList "passwd").err
      = some .authFailure ∧
    (AuthUserByPasswd sampleCtx sampleBcrypt false "carol".toList "pw".toList
      "passwd").hashCalls.length = 1 ∧
    (AuthUserByPasswd sampleCtx sampleBcrypt false "bob".toList "x".toList
      "passwd").hashCalls.length = 1 :=
  absent_user_like_wrong_password sampleCtx sampleBcrypt "passwd"
    "#username:salt:authCookie\nbob:$2a$12$abcdefghijklmnopqrstuv:$2a$12$abcdefghijklmnopqrstuvhunter2\n".toList
    [["bob".toList, "$2a$12$abcdefghijklmnopqrstuv".toList,
      "$2a$12$abcdefghijklmnopqrstuvhunter2".toList]]
    (by rfl) (by rfl) "carol".toList "pw".toList (by decide)
    ⟨"$2a$12$l0coBlRDNEJeQVl6GdEPbUpw".toList, by rfl⟩
    "bob".toList "x".toList []
    ["bob".toList, "$2a$12$abcdefghijklmnopqrstuv".toList,
      "$2a$12$abcdefghijklmnopqrstuvhunter2".toList] []
    (by rfl) (by decide) (by rfl)
    ⟨"$2a$12$abcdefghijklmnopqrstuvx".toList, by rfl, by decide⟩

/-- C2, counterexample: the store `bob:badsalt:h` has three fields a row; the absent
user `carol` gets the error `auth failure`, while the present user `bob`, whose stored
salt bcrypt does not accept, gets the error of `bcrypt.Hash` whatever the password. -/
theorem absent_user_unlike_bad_salt :
    ReadAll "bob:badsalt:h\n".toList =
      .ok [["bob".toList, "badsalt".toList, "h".toList]] ∧
    AuthUserByPasswd sampleBadSaltCtx sampleBcrypt false "carol".toList "pw".toList
        "passwd" =
      { valid := false, err := some .authFailure
        hashCalls := [("pw".toList, "$2a$12$l0coBlRDNEJeQVl6GdEPbU".toList)] } ∧
    AuthUserByPasswd sampleBadSaltCtx sampleBcrypt false "bob".toList "pw".toList
        "passwd" =
      { valid := false, err := some (.bcrypt ())
        hashCalls := [("pw".toList, "badsalt".toList)] } :=
  ⟨by rfl, by rfl, by rfl⟩

/-- C3 (amended). `handleChannel` rejects a channel-open event with the reason
"unknown channel type" exactly when its kind is not `session`; this includes
`direct-tcpip`, and no kind is ever handed to `DirectTcpIpHandler`. A `session` channel
whose `Accept` and `pty.Open` succeed is given to the session handler. -/
theorem handleChannel_rejects_iff (acceptOk ptyOk : Bool) (t : String) :
    ((∃ msg, handleChannel acceptOk ptyOk t = .rejected .UnknownChannelType msg) ↔
      t ≠ "session") ∧
    handleChannel acceptOk ptyOk t ≠ .tunnel ∧
    handleChannel true true "session" = .session := by
  refine ⟨⟨?_, ?_⟩, ?_, by decide⟩
  · rintro ⟨msg, h⟩ rfl
    cases acceptOk <;> cases ptyOk <;> simp [handleChannel] at h
  · intro h
    exact ⟨"unknown channel type: " ++ t, by simp [handleChannel, h]⟩
  · by_cases h : t = "session"
    · subst h
      cases acceptOk <;> cases ptyOk <;> simp [handleChannel]
    · simp [handleChannel, h]

/-- C3, counterexample: a `direct-tcpip` channel is rejected as an unknown channel type. -/
theorem handleChannel_direct_tcpip :
    handleChannel true true "direct-tcpip" =
      .rejected .UnknownChannelType "unknown channel type: direct-tcpip" := by
  decide

theorem get3_sshString (c : Bytes) : (sshString c).get? 3 = some (c.length % 256) := by
  simp [sshString, be32]

theorem handleExec_sshString (env : Env) (s : Session) (c : Bytes) (hc : c.length < 252) :
    handleExec env s (sshString c) =
      if env.start [env.shell, ascii "-c", c] then
        .running { s with
          started := s.started ++ [[env.shell, ascii "-c", c]]
          replies := s.replies ++ [true] }
      else .running s := by
  have h1 : (c.length % 256 + 4) % 256 = c.length + 4 := by omega
  have h2 : slice (sshString c) 4 (c.length + 4) = some c := by
    have hl : (sshString c).length = c.length + 4 := by
      simp [sshString, be32]
    have ht : (sshString c).take (c.length + 4) = sshString c := by
      rw [← hl]
      exact List.take_length _
    simp only [slice, hl, Nat.le_add_left, le_refl, and_self, if_true, ht]
    simp [sshString, be32]
  simp only [handleExec, get3_sshString, h1, h2]

/-- C4 (amended). The handler keeps no record of a started activity: `exec` requests
whose commands are shorter than 252 bytes and whose processes start are each answered
with success and each start one more child process, whatever the channel did before. -/
theorem exec_requests_all_start (env : Env) (hstart : ∀ argv, env.start argv = true)
    (cmds : List Bytes) (hlen : ∀ c ∈ cmds, c.length < 252) (s : Session) :
    handleRequests env s (cmds.map fun c => ⟨"exec", sshString c⟩) =
      .running { s with
        started := s.started ++ cmds.map (fun c => [env.shell, ascii "-c", c])
        replies := s.replies ++ List.replicate cmds.length true } := by
  induction cmds generalizing s with
  | nil => simp [handleRequests]
  | cons c cs ih =>
    have hc := hlen c (by simp)
    simp only [List.map_cons, handleRequests, handleRequest, if_true,
      handleExec_sshString env s c hc, hstart]
    rw [ih (fun x hx => hlen x (by simp [hx]))]
    simp [List.replicate_succ]

/-- C4, witness: two `exec` requests for `ls` after a `shell` request. -/
theorem exec_requests_all_start_witness :
    handleRequests sampleEnv (handleRequest sampleEnv Session.init ⟨"shell", []⟩).state
        ([ascii "ls", ascii "ls"].map fun c => ⟨"exec", sshString c⟩) =
      .running { (handleRequest sampleEnv Session.init ⟨"shell", []⟩).state with
        started := (handleRequest sampleEnv Session.init ⟨"shell", []⟩).state.started ++
          [ascii "ls", ascii "ls"].map (fun c => [sampleEnv.shell, ascii "-c", c])
        replies := (handleRequest sampleEnv Session.init ⟨"shell", []⟩).state.replies ++
          List.replicate [ascii "ls", ascii "ls"].length true } :=
  exec_requests_all_start sampleEnv (fun _ => rfl) [ascii "ls", ascii "ls"] (by decide) _

/-- C4, counterexample: on one channel a `shell` request and two `exec` requests start
three child processes, and all three requests are answered with success. -/
theorem second_exec_starts_again :
    (handleRequests sampleEnv Session.init
        [⟨"shell", []⟩, ⟨"exec", sshString (ascii "ls")⟩,
          ⟨"exec", sshString (ascii "id")⟩]).state.started =
      [[ascii "sh"], [ascii "sh", ascii "-c", ascii "ls"],
        [ascii "sh", ascii "-c", ascii "id"]] ∧
    (handleRequests sampleEnv Session.init
        [⟨"shell", []⟩, ⟨"exec", sshString (ascii "ls")⟩,
          ⟨"exec", sshString (ascii "id")⟩]).state.replies = [true, true, true] := by
  decide

set_option maxRecDepth 100000 in
/-- C5, the code at the failing inputs: for an `exec` payload whose command has 256
bytes the command handed to the shell is empty, and for one whose command has 252 bytes
the slice expression panics. -/
theorem exec_long_command :
    handleExec sampleEnv Session.init (sshString (List.replicate 256 97)) =
      .running { Session.init with
        started := [[ascii "sh", ascii "-c", []]], replies := [true] } ∧
    handleExec sampleEnv Session.init (sshString (List.replicate 252 97)) =
      .panicked Session.init := by
  decide

/-- C6, the code at the failing input: a `pty-req` request with an empty payload panics
at `req.Payload[3]`, before any reply is sent. -/
theorem ptyReq_empty_payload :
    handleRequest sampleEnv Session.init ⟨"pty-req", []⟩ = .panicked Session.init ∧
    (handleRequests sampleEnv Session.init [⟨"pty-req", []⟩]).state.replies = [] := by
  decide

theorem findHash_absent (user : Str) (lines : List Str)
    (h : ∀ line ∈ lines, (splitOn ':' [] line).getD 0 [] ≠ user) :
    findHash user lines = some [] := by
  induction lines with
  | nil => rfl
  | cons l ls ih =>
    simp only [findHash, h l (by simp), if_false]
    exact ih (fun x hx => h x (by simp [hx]))

theorem findHash_present (user : Str) (pre : List Str) (line : Str) (post : List Str)
    (hash : Str) (more : List Str)
    (hpre : ∀ l ∈ pre, (splitOn ':' [] l).getD 0 [] ≠ user)
    (hline : splitOn ':' [] line = user :: hash :: more) :
    findHash user (pre ++ line :: post) = some hash := by
  induction pre with
  | nil => simp [findHash, hline]
  | cons l ls ih =>
    simp only [List.cons_append, findHash, hpre l (by simp), if_false]
    exact ih (fun x hx => hpre x (by simp [hx]))

theorem splitOn_length (sep : Char) (s cur : Str) : ¬ (splitOn sep cur s).length < 1 := by
  induction s generalizing cur with
  | nil => simp [splitOn]
  | cons c cs ih =>
    simp only [splitOn]
    split
    · simp
    · exact ih _

/-- The two failure paths of `VerifyPass` in general. For a shadow file that can be read,
`VerifyPass` for a username that is the first field of no line returns
`(false, "nil hash!")` without consulting the verifier, while for a username whose first
matching line holds a non-empty hash and that is given a wrong password it returns
`(false, err)` with the verifier's error: the two results differ. -/
theorem verifyPass_absent_vs_wrong {ρ π : Type} (ctx : AuthCtx ρ)
    (verify : Str → Str → Option π) (goos : String) (data : Str)
    (hread : ctx.reader (pwFileName goos) = .ok data)
    (absent pw : Str)
    (habs : ∀ line ∈ splitOn '\n' [] data, (splitOn ':' [] line).getD 0 [] ≠ absent)
    (present pw' : Str) (pre : List Str) (line : Str) (post : List Str)
    (hash : Str) (more : List Str) (pe : π)
    (hsplit : splitOn '\n' [] data = pre ++ line :: post)
    (hpre : ∀ l ∈ pre, (splitOn ':' [] l).getD 0 [] ≠ present)
    (hline : splitOn ':' [] line = present :: hash :: more) (hne : hash ≠ [])
    (hwrong : verify pw' hash = some pe) :
    VerifyPass ctx verify goos absent pw = some (false, some .nilHash) ∧
    VerifyPass ctx verify goos present pw' = some (false, some (.passlib pe)) ∧
    VerifyPass ctx verify goos absent pw ≠ VerifyPass ctx verify goos present pw' := by
  have ha : VerifyPass ctx verify goos absent pw = some (false, some .nilHash) := by
    simp only [VerifyPass, hread, splitOn_length, if_false,
      findHash_absent absent _ habs, List.length_nil, if_true]
  have hp : VerifyPass ctx verify goos present pw' = some (false, some (.passlib pe)) := by
    have hl : ¬ hash.length = 0 := fun h => hne (List.length_eq_zero.mp h)
    have hf := findHash_present present pre line post hash more hpre hline
    rw [← hsplit] at hf
    simp only [VerifyPass, hread, splitOn_length, if_false, hf, hl, hwrong]
  refine ⟨ha, hp, ?_⟩
  rw [ha, hp]
  simp

/-- An instance of `verifyPass_absent_vs_wrong`: the sample shadow file, with `nobody`
absent and `root` given a wrong password. -/
theorem verifyPass_absent_vs_wrong_witness :
    VerifyPass sampleShadow (fun _ _ => some ()) "linux" "nobody".toList "x".toList =
      some (false, some .nilHash) ∧
    VerifyPass sampleShadow (fun _ _ => some ()) "linux" "root".toList "x".toList =
      some (false, some (.passlib ())) ∧
    VerifyPass sampleShadow (fun _ _ => some ()) "linux" "nobody".toList "x".toList ≠
      VerifyPass sampleShadow (fun _ _ => some ()) "linux" "root".toList "x".toList :=
  verifyPass_absent_vs_wrong sampleShadow (fun _ _ => some ()) "linux"
    "root:$6$salt$digest:19000:0:99999:7:::\n".toList (by rfl)
    "nobody".toList "x".toList (by decide)
    "root".toList "x".toList [] "root:$6$salt$digest:19000:0:99999:7:::".toList [[]]
    "$6$salt$digest".toList
    ["19000".toList, "0".toList, "99999".toList, "7".toList, [], [], []] ()
    (by rfl) (by decide) (by rfl) (by decide) (by rfl)

/-- C7, the code at the failing input: on the sample shadow file the absent user `nobody`
gets the error `nil hash!`, while the present user `root` with a wrong password gets the
verifier's error; the two results are not the same. -/
theorem verifyPass_errors_differ :
    VerifyPass sampleShadow (fun _ _ => some ()) "linux" "nobody".toList "x".toList =
      some (false, some .nilHash) ∧
    VerifyPass sampleShadow (fun _ _ => some ()) "linux" "root".toList "x".toList =
      some (false, some (.passlib ())) := by
  decide

theorem updateRecords_eq_map (u salt hash : Str) (recs : List (List Str))
    (h3 : ∀ r ∈ recs, r.length = 3) :
    updateRecords u salt hash recs =
      recs.map (fun r => if r.getD 0 [] = u then [u, salt, hash] else r) := by
  unfold updateRecords
  apply List.map_congr_left
  intro r hr
  by_cases hu : r.getD 0 [] = u
  · match r, h3 r hr, hu with
    | [a, b, c], _, hu =>
      simp only [List.getD_cons_zero] at hu
      simp [hu]
  · simp only [if_neg hu]

theorem updateRecords_absent (u salt hash : Str) (recs : List (List Str))
    (h : ∀ r ∈ recs, r.getD 0 [] ≠ u) : updateRecords u salt hash recs = recs := by
  unfold updateRecords
  conv_rhs => rw [← List.map_id recs]
  apply List.map_congr_left
  intro r hr
  simp only [if_neg (h r hr), id]

theorem filter_updated (u salt hash : Str) (recs : List (List Str)) :
    (recs.map (fun r => if r.getD 0 [] = u then [u, salt, hash] else r)).filter
        (fun r => decide (r.getD 0 [] ≠ u)) =
      recs.filter (fun r => decide (r.getD 0 [] ≠ u)) := by
  induction recs with
  | nil => rfl
  | cons r rs ih =>
    by_cases hu : r.getD 0 [] = u
    · have h1 : decide ([u, salt, hash].getD 0 [] ≠ u) = false :=
        decide_eq_false (fun h => h rfl)
      have h2 : decide (r.getD 0 [] ≠ u) = false := decide_eq_false (fun h => h hu)
      simp only [List.map_cons]
      rw [if_pos hu]
      simp only [List.filter_cons]
      rw [h1, h2]
      simp only [Bool.false_eq_true, if_false]
      exact ih
    · have h2 : decide (r.getD 0 [] ≠ u) = true := decide_eq_true hu
      simp only [List.map_cons]
      rw [if_neg hu]
      simp only [List.filter_cons]
      rw [h2]
      simp only [if_true]
      exact congrArg (fun l => r :: l) ih

/-- C8 (amended). Let the store file hold a header and N records whose fields hold no
line break and whose user names do not begin with `#`, and let `u` be a non-empty user
name that holds no line break and does not begin with `#` (the salt and digest bcrypt
produces holding no line break either). Then the file written by a successful
`SetPasswd`, read back with the store parser, yields a record list in which the records
of other users are unchanged and in their order; it has exactly N records when `u` was
present (its records replaced in place by `u, salt, hash`) and is the old list followed
by the record of `u` when `u` was absent. -/
theorem setPasswd_roundtrip {β : Type} (bc : Bcrypt β) (tmpName : String) (fs fs' : FS)
    (u s : Str) (fname : String) (b : Str) (recs : List (List Str)) (salt hash : Str)
    (hfile : fs fname = some b) (hrecs : ReadAll b = .ok recs)
    (hfmt : ∀ r ∈ recs, ∀ f ∈ r, '\n' ∉ f)
    (hnames : ∀ r ∈ recs, (r.getD 0 []).head? ≠ some '#')
    (hsalt : bc.Salt 12 = .ok salt) (hhash : bc.Hash s salt = .ok hash)
    (hsaltnl : '\n' ∉ salt) (hhashnl : '\n' ∉ hash)
    (hu2 : u.head? ≠ some '#') (hu3 : '\n' ∉ u)
    (hset : SetPasswd bc tmpName fs u s fname = .ok fs') :
    ∃ b' recs', fs' fname = some b' ∧ ReadAll b' = .ok recs' ∧
      recs'.filter (fun r => decide (r.getD 0 [] ≠ u)) =
        recs.filter (fun r => decide (r.getD 0 [] ≠ u)) ∧
      ((∃ r ∈ recs, r.getD 0 [] = u) →
        recs'.length = recs.length ∧
        recs' = recs.map (fun r => if r.getD 0 [] = u then [u, salt, hash] else r)) ∧
      ((∀ r ∈ recs, r.getD 0 [] ≠ u) → recs' = recs ++ [[u, salt, hash]]) := by
  obtain ⟨salt', hash', b', recs', -, hs', hh', hf', hr', hout⟩ :=
    SetPasswd_ok bc tmpName fs fs' u s fname hset
  rw [hsalt] at hs'
  simp only [Except.ok.injEq] at hs'
  subst hs'
  rw [hhash] at hh'
  simp only [Except.ok.injEq] at hh'
  subst hh'
  rw [hfile] at hf'
  simp only [Option.some.injEq] at hf'
  subst hf'
  rw [hrecs] at hr'
  simp only [Except.ok.injEq] at hr'
  subst hr'
  have h3 := ReadAll_length b recs hrecs
  have hmem := newRecords_mem u salt hash recs h3
  have hn3 : ∀ r ∈ newRecords u salt hash recs, r.length = 3 := by
    intro r hr
    rcases hmem r hr with h | h
    · exact h3 r h.1
    · simp [h]
  have hnnl : ∀ r ∈ newRecords u salt hash recs, ∀ f ∈ r, '\n' ∉ f := by
    intro r hr
    rcases hmem r hr with h | h
    · exact hfmt r h.1
    · subst h
      intro f hf
      simp only [List.mem_cons, List.mem_singleton, List.not_mem_nil, or_false] at hf
      rcases hf with rfl | rfl | rfl
      · exact hu3
      · exact hsaltnl
      · exact hhashnl
  have hnc : ∀ r ∈ newRecords u salt hash recs, (!isCommentRow r) = true := by
    intro r hr
    rcases hmem r hr with h | h
    · match r, h3 r h.1, hnames r h.1 with
      | [a, b, c], _, hn =>
        simp only [List.getD_cons_zero] at hn
        simp [isCommentRow_of_head a [b, c] hn]
    · subst h
      simp [isCommentRow_of_head u [salt, hash] hu2]
  have hrd := NewReader_written headerRow headerRow_comment headerRow_noNL _ hn3 hnnl
  rw [List.filter_eq_self.mpr hnc] at hrd
  have hall : ReadAll (Write headerRow ++ WriteAll (newRecords u salt hash recs)) =
      .ok (newRecords u salt hash recs) := by
    unfold ReadAll
    rw [hrd]
    exact collect_map_ok _
  refine ⟨_, newRecords u salt hash recs, hout, hall, ?_, ?_, ?_⟩
  · unfold newRecords
    split
    · rw [updateRecords_eq_map u salt hash recs h3]
      exact filter_updated u salt hash recs
    · rw [updateRecords_eq_map u salt hash recs h3, List.filter_append,
        filter_updated u salt hash recs]
      simp
  · intro hex
    have hf : recFound u recs = true := by
      simpa [recFound] using hex
    simp only [newRecords, hf, if_true]
    rw [updateRecords_eq_map u salt hash recs h3]
    exact ⟨by simp, rfl⟩
  · intro hab
    have hf : ¬ recFound u recs = true := by
      simpa [recFound] using hab
    simp only [newRecords, hf, if_false]
    rw [updateRecords_absent u salt hash recs hab]
    simp

/-- C8, witness: `alice` entered into the sample store, which holds the record of `bob`. -/
theorem setPasswd_roundtrip_witness :
    ∃ b' recs', sampleFSAfter "alice".toList "secret".toList "passwd" = some b' ∧
      ReadAll b' = .ok recs' ∧
      recs'.filter (fun r => decide (r.getD 0 [] ≠ "alice".toList)) =
        [["bob".toList, "$2a$12$abcdefghijklmnopqrstuv".toList,
          "$2a$12$abcdefghijklmnopqrstuvhunter2".toList]].filter
          (fun r => decide (r.getD 0 [] ≠ "alice".toList)) ∧
      ((∃ r ∈ [["bob".toList, "$2a$12$abcdefghijklmnopqrstuv".toList,
            "$2a$12$abcdefghijklmnopqrstuvhunter2".toList]], r.getD 0 [] = "alice".toList) →
        recs'.length = [["bob".toList, "$2a$12$abcdefghijklmnopqrstuv".toList,
            "$2a$12$abcdefghijklmnopqrstuvhunter2".toList]].length ∧
        recs' = [["bob".toList, "$2a$12$abcdefghijklmnopqrstuv".toList,
            "$2a$12$abcdefghijklmnopqrstuvhunter2".toList]].map
          (fun r => if r.getD 0 [] = "alice".toList then
            ["alice".toList, "$2a$12$abcdefghijklmnopqrstuv".toList,
              "$2a$12$abcdefghijklmnopqrstuvsecret".toList] else r)) ∧
      ((∀ r ∈ [["bob".toList, "$2a$12$abcdefghijklmnopqrstuv".toList,
            "$2a$12$abcdefghijklmnopqrstuvhunter2".toList]], r.getD 0 [] ≠ "alice".toList) →
        recs' = [["bob".toList, "$2a$12$abcdefghijklmnopqrstuv".toList,
            "$2a$12$abcdefghijklmnopqrstuvhunter2".toList]] ++
          [["alice".toList, "$2a$12$abcdefghijklmnopqrstuv".toList,
            "$2a$12$abcdefghijklmnopqrstuvsecret".toList]]) :=
  setPasswd_roundtrip sampleBcrypt "xs-passwd1" sampleFS
    (sampleFSAfter "alice".toList "secret".toList) "alice".toList "secret".toList "passwd"
    "#username:salt:authCookie\nbob:$2a$12$abcdefghijklmnopqrstuv:$2a$12$abcdefghijklmnopqrstuvhunter2\n".toList
    [["bob".toList, "$2a$12$abcdefghijklmnopqrstuv".toList,
      "$2a$12$abcdefghijklmnopqrstuvhunter2".toList]]
    "$2a$12$abcdefghijklmnopqrstuv".toList "$2a$12$abcdefghijklmnopqrstuvsecret".toList
    (by rfl) (by rfl) (by decide) (by decide) (by rfl) (by rfl) (by decide) (by decide)
    (by decide) (by decide) (by rfl)

/-- C8, counterexample: the sample store holds one record, for `bob`; after `SetPasswd`
has entered the absent user `#bob`, the file read back still holds that one record, not
two: the row written for `#bob` is a comment line. -/
theorem setPasswd_hash_user_lost :
    SetPasswd sampleBcrypt "xs-passwd1" sampleFS "#bob".toList "secret".toList "passwd" =
        .ok (sampleFSAfter "#bob".toList "secret".toList) ∧
    (sampleFSAfter "#bob".toList "secret".toList "passwd").map ReadAll =
      some (.ok [["bob".toList, "$2a$12$abcdefghijklmnopqrstuv".toList,
        "$2a$12$abcdefghijklmnopqrstuvhunter2".toList]]) :=
  ⟨by rfl, by rfl⟩

theorem Uint32_be32 (n : Nat) (hn : n < 2 ^ 32) (rest : Bytes) :
    Tools.Uint32 (be32 n ++ rest) = some n := by
  simp only [be32, List.cons_append, List.nil_append, Tools.Uint32, Option.some.injEq]
  norm_num at hn ⊢
  omega

theorem ParseDims_be32 (w h : Nat) (hw : w < 2 ^ 32) (hh : h < 2 ^ 32) (rest : Bytes) :
    Tools.ParseDims (be32 w ++ be32 h ++ rest) = some (w, h) := by
  have h1 : Tools.Uint32 (be32 w ++ be32 h ++ rest) = some w := by
    rw [List.append_assoc]
    exact Uint32_be32 w hw _
  have h2 : (be32 w ++ be32 h ++ rest).drop 4 = be32 h ++ rest := by
    simp [be32]
  have h3 : ¬ (be32 w ++ be32 h ++ rest).length < 4 := by
    simp [be32]
  simp only [Tools.ParseDims, h1, h2, h3, if_false, Uint32_be32 h hh]

/-- C9 (amended). For every `pty-req` payload made of a length-prefixed terminal-type
string shorter than 252 bytes followed by a big-endian 32-bit width `w` and height `h`,
the handler sets the pty window size to `w mod 65536` columns by `h mod 65536` rows and
replies success; for every `window-change` payload beginning with big-endian `w` then
`h` it resizes the pty to `w mod 65536` columns by `h mod 65536` rows without a reply. -/
theorem ptyReq_windowChange_dims (env : Env) (s : Session) (term rest : Bytes) (w h : Nat)
    (hterm : term.length < 252) (hw : w < 2 ^ 32) (hh : h < 2 ^ 32) :
    handleRequest env s ⟨"pty-req", sshString term ++ be32 w ++ be32 h ++ rest⟩ =
      .running { s with
        winsize := some { Width := w % 2 ^ 16, Height := h % 2 ^ 16 }
        replies := s.replies ++ [true] } ∧
    handleRequest env s ⟨"window-change", be32 w ++ be32 h ++ rest⟩ =
      .running { s with winsize := some { Width := w % 2 ^ 16, Height := h % 2 ^ 16 } } := by
  constructor
  · have h0 : (sshString term ++ be32 w ++ be32 h ++ rest).get? 3 = some term.length := by
      have : term.length % 256 = term.length := by omega
      simp [sshString, be32, this]
    have h1 : (term.length + 4) % 256 = term.length + 4 := by omega
    have hl : (sshString term ++ be32 w ++ be32 h ++ rest).length =
        term.length + 4 + (8 + rest.length) := by
      simp [sshString, be32]
      omega
    have h2 : (slice (sshString term ++ be32 w ++ be32 h ++ rest) 4 (term.length + 4)).isSome
        = true := by
      simp only [slice, hl]
      rw [if_pos ⟨by omega, by omega⟩]
      rfl
    have h3 : sliceFrom (sshString term ++ be32 w ++ be32 h ++ rest) (term.length + 4) =
        some (be32 w ++ be32 h ++ rest) := by
      simp only [sliceFrom, hl]
      rw [if_pos (by omega)]
      have hs : (sshString term).length = term.length + 4 := by
        simp [sshString, be32]
      rw [List.append_assoc, List.append_assoc, ← hs, List.drop_left]
      simp
    obtain ⟨x, hx⟩ := Option.isSome_iff_exists.mp h2
    have hreq : handleRequest env s ⟨"pty-req", sshString term ++ be32 w ++ be32 h ++ rest⟩ =
        handlePtyReq s (sshString term ++ be32 w ++ be32 h ++ rest) := by
      simp [handleRequest]
    rw [hreq]
    simp only [handlePtyReq, h0, h1, hx, h3, ParseDims_be32 w h hw hh rest, Tools.SetWinsize]
  · have hreq : handleRequest env s ⟨"window-change", be32 w ++ be32 h ++ rest⟩ =
        handleWindowChange s (be32 w ++ be32 h ++ rest) := by
      simp [handleRequest]
    rw [hreq]
    simp only [handleWindowChange, ParseDims_be32 w h hw hh rest, Tools.SetWinsize]

/-- C9, witness: `pty-req` with terminal `xterm` and 80x24, `window-change` with 80x24. -/
theorem ptyReq_windowChange_dims_witness :
    handleRequest sampleEnv Session.init
        ⟨"pty-req", sshString (ascii "xterm") ++ be32 80 ++ be32 24 ++ []⟩ =
      .running { Session.init with
        winsize := some { Width := 80 % 2 ^ 16, Height := 24 % 2 ^ 16 }
        replies := Session.init.replies ++ [true] } ∧
    handleRequest sampleEnv Session.init ⟨"window-change", be32 80 ++ be32 24 ++ []⟩ =
      .running { Session.init with
        winsize := some { Width := 80 % 2 ^ 16, Height := 24 % 2 ^ 16 } } :=
  ptyReq_windowChange_dims sampleEnv Session.init (ascii "xterm") [] 80 24
    (by decide) (by decide) (by decide)

/-- C9, counterexample: a `pty-req` for `xterm` with width 65616 and height 24 sets the
pty to 80 columns, and a following `window-change` with width 120 and height 65576 sets
it to 40 rows. -/
theorem ptyReq_width_truncated :
    (handleRequests sampleEnv Session.init
      [⟨"pty-req", sshString (ascii "xterm") ++ be32 65616 ++ be32 24⟩]).state.winsize =
        some { Width := 80, Height := 24 } ∧
    (handleRequests sampleEnv Session.init
      [⟨"pty-req", sshString (ascii "xterm") ++ be32 65616 ++ be32 24⟩,
        ⟨"window-change", be32 120 ++ be32 65576⟩]).state.winsize =
        some { Width := 120, Height := 40 } := by
  decide

/-- C10, the code at the failing input: whichever copy loop of the shell bridge finishes
first, after both have finished the channel has been closed once and the pty master has
not been closed at all; the closure `cl` of the tunnel handler closes both of its ends
once. -/
theorem shellBridge_leaves_pty_open :
    shellBridge [.toChannel, .fromChannel] =
      { onceDone := true, channelCloses := 1, peerCloses := 0 } ∧
    shellBridge [.fromChannel, .toChannel] =
      { onceDone := true, channelCloses := 1, peerCloses := 0 } ∧
    tunnelBridge [.toChannel, .fromChannel] =
      { onceDone := true, channelCloses := 1, peerCloses := 1 } ∧
    tunnelBridge [.fromChannel, .toChannel] =
      { onceDone := true, channelCloses := 1, peerCloses := 1 } := by
  decide

/-- C11, the code at the failing inputs: `VerifyPass` panics at `lFields[1]` for the
empty username on a shadow file that ends with a newline (the piece behind the last
newline is an empty line, whose only field equals the username), and for the username
`bob` on a shadow file holding the line `bob` without a colon. -/
theorem verifyPass_index_out_of_range :
    VerifyPass sampleShadow (fun _ _ => some ()) "linux" [] "x".toList = none ∧
    VerifyPass sampleShadowBare (fun _ _ => some ()) "linux" "bob".toList "x".toList =
      none ∧
    findHash [] (splitOn '\n' [] "root:$6$salt$digest:19000:0:99999:7:::\n".toList) = none := by
  decide

end Yisshd
